import Mathlib

/-!
Verification of the PROGLANG interpreter (src/Interpreter.py): a shallow
embedding of the lexer, recursive-descent parser and tree-walking evaluator,
with theorems checking the natural-language specification's claims.

Modelling conventions:
* Python runtime values are the inductive `Value`: integers (`vInt`),
  floating-point numbers (`vFloat`, modelled as exact rationals — every float
  arising in the properties below is exactly representable, and the claims
  concern the *kind* of the result, not rounding), booleans (`vBool`, produced
  by comparison operators) and `None` (`vNone`, the value Python methods
  return implicitly; statement visits return it).
* Python booleans participate in arithmetic as the integers 0/1 and compare
  numerically (True == 1), exactly as in CPython; `Value.intView` and
  `Value.numView` encode these coercions.
* The lexer's character classes are modelled over the ASCII range that the
  language's programs use (`isalpha` ↦ `Char.isAlpha`, `isdigit` ↦
  `Char.isDigit`, `isspace` ↦ `pyIsSpace`).
* Unbounded loops (`while`/`for` evaluation, the parser's and tokenizer's
  scanning loops) are given explicit fuel; running out of fuel is a distinct
  outcome (`Res.nofuel` / `Err.fuelOut`) never identified with the program's
  own errors.
* Exceptions are the inductive `Err`; an uncaught exception aborts the turn
  and the driver keeps the environment as already mutated, which `Res.err`
  models by carrying the state at the moment of the raise.
-/

namespace ProgLang

/-- Exact-rational model of Python floats: a numerator/denominator pair
(denominator kept positive by the operations, never normalized by gcd, so
every operation is plain integer arithmetic). Exactness is adequate here:
every float the verified properties touch is exactly representable and the
claims concern the kind and exact value of results, not IEEE rounding. -/
structure PyFloat where
  num : Int
  den : Int
deriving DecidableEq, Repr

/-- The float a Python int promotes to. -/
def PyFloat.ofInt (n : Int) : PyFloat := ⟨n, 1⟩

/-- Numeric equality of floats (cross-multiplication). -/
def PyFloat.feq (a b : PyFloat) : Bool := a.num * b.den = b.num * a.den

/-- Numeric strict order on floats (valid for positive denominators). -/
def PyFloat.flt (a b : PyFloat) : Bool := a.num * b.den < b.num * a.den

/-- Numeric non-strict order on floats. -/
def PyFloat.fle (a b : PyFloat) : Bool := a.num * b.den ≤ b.num * a.den

/-- Float addition. -/
def PyFloat.fadd (a b : PyFloat) : PyFloat :=
  ⟨a.num * b.den + b.num * a.den, a.den * b.den⟩

/-- Float subtraction. -/
def PyFloat.fsub (a b : PyFloat) : PyFloat :=
  ⟨a.num * b.den - b.num * a.den, a.den * b.den⟩

/-- Float multiplication. -/
def PyFloat.fmul (a b : PyFloat) : PyFloat := ⟨a.num * b.num, a.den * b.den⟩

/-- Float negation. -/
def PyFloat.fneg (a : PyFloat) : PyFloat := ⟨-a.num, a.den⟩

/-- Float division (sign moved to the numerator to keep denominators
positive). -/
def PyFloat.fdiv (a b : PyFloat) : PyFloat :=
  if a.den * b.num < 0 then ⟨-(a.num * b.den), -(a.den * b.num)⟩
  else ⟨a.num * b.den, a.den * b.num⟩

/-- Is this float numerically zero? -/
def PyFloat.isZero (a : PyFloat) : Bool := a.num = 0

/-- Python runtime values reachable in this interpreter. -/
inductive Value where
  | vInt (n : Int)
  | vFloat (q : PyFloat)
  | vBool (b : Bool)
  | vNone
deriving DecidableEq, Repr

/-- Exceptions the pipeline can raise: lexer's invalid character, parser
errors, and the evaluator's ZeroDivisionError, NameError, TypeError and the
two defensive unsupported-operator raises. `fuelOut` marks fuel exhaustion of
the fueled embedding, not a program error. -/
inductive Err where
  | invalidChar
  | parseErr (msg : String)
  | divByZero
  | nameErr (name : String)
  | unsuppBinop (op : String)
  | unsuppUnop (op : String)
  | typeErr
  | fuelOut
deriving DecidableEq, Repr

/-- Tokens, as in class `Token`: a type tag plus optional payload. -/
inductive Token where
  | NUMBER (n : Int)
  | IDENTIFIER (s : String)
  | IF | ELSE | WHILE | FOR | PRINT
  | EQ | NE | LE | GE
  | EQUALS | LT | GT
  | PLUS | MINUS | MULTIPLY | DIVIDE
  | LPAREN | RPAREN | LBRACE | RBRACE | SEMI
  | EOF
deriving DecidableEq, Repr

/-- The token's `type` string, as compared by `Parser.eat` and dispatched on
by the evaluator. -/
def Token.kindStr : Token → String
  | .NUMBER _ => "NUMBER"
  | .IDENTIFIER _ => "IDENTIFIER"
  | .IF => "IF"
  | .ELSE => "ELSE"
  | .WHILE => "WHILE"
  | .FOR => "FOR"
  | .PRINT => "PRINT"
  | .EQ => "EQ"
  | .NE => "NE"
  | .LE => "LE"
  | .GE => "GE"
  | .EQUALS => "EQUALS"
  | .LT => "LT"
  | .GT => "GT"
  | .PLUS => "PLUS"
  | .MINUS => "MINUS"
  | .MULTIPLY => "MULTIPLY"
  | .DIVIDE => "DIVIDE"
  | .LPAREN => "LPAREN"
  | .RPAREN => "RPAREN"
  | .LBRACE => "LBRACE"
  | .RBRACE => "RBRACE"
  | .SEMI => "SEMI"
  | .EOF => "EOF"

/-- Is this one of the five keyword tokens? -/
def Token.isKw : Token → Bool
  | .IF | .ELSE | .WHILE | .FOR | .PRINT => true
  | _ => false

/-! ## Lexer -/

/-- Python `str.isspace` restricted to ASCII. -/
def pyIsSpace (c : Char) : Bool :=
  c = ' ' || c = '\t' || c = '\n' || c = '\x0d' || c = '\x0b' || c = '\x0c'

/-- The character class of `re.match` r-[a-zA-Z_] used by `Lexer.id`. -/
def isIdChar (c : Char) : Bool :=
  c.isAlpha || c = '_'

/-- The function `Lexer.skip_whitespace`: advance while the current character is space. -/
def skipWs : List Char → List Char
  | [] => []
  | c :: cs => if pyIsSpace c then skipWs cs else c :: cs

/-- The collecting loop of `Lexer.id`: the longest prefix of identifier
characters, together with the remaining input. -/
def lexIdChars : List Char → List Char × List Char
  | [] => ([], [])
  | c :: cs =>
    if isIdChar c then
      match lexIdChars cs with
      | (run, rest) => (c :: run, rest)
    else ([], c :: cs)

/-- The collecting loop of `Lexer.number`. -/
def lexNumChars : List Char → List Char × List Char
  | [] => ([], [])
  | c :: cs =>
    if c.isDigit then
      match lexNumChars cs with
      | (run, rest) => (c :: run, rest)
    else ([], c :: cs)

/-- Python `int` on a digit string. -/
def digitsToInt (ds : List Char) : Int :=
  Int.ofNat (ds.foldl (fun a c => a * 10 + (c.toNat - 48)) 0)

/-- Python `str.lower` over the ASCII range: lower each character. -/
def strLower (s : String) : String :=
  String.mk (s.data.map Char.toLower)

/-- The keyword table `self.keywords`, queried with the lowercased run. -/
def kwLookup : String → Option Token
  | "if" => some .IF
  | "else" => some .ELSE
  | "while" => some .WHILE
  | "for" => some .FOR
  | "print" => some .PRINT
  | _ => none

/-- The function `Lexer.id`: collect the identifier run, then the case-insensitive keyword
check; a match gives the keyword token, otherwise IDENTIFIER with the
original-case text. -/
def lexId (cs : List Char) : Token × List Char :=
  match lexIdChars cs with
  | (run, rest) =>
    let s := String.mk run
    match kwLookup (strLower s) with
    | some tok => (tok, rest)
    | none => (.IDENTIFIER s, rest)

/-- The function `Lexer.get_next_token`: skip whitespace, then dispatch on the current
character — identifier runs, digit runs, two-character operators before
one-character operators, and otherwise the invalid-character error. -/
def getNextToken (cs : List Char) : Except Err (Token × List Char) :=
  match skipWs cs with
  | [] => .ok (.EOF, [])
  | c :: rest =>
    if c.isAlpha then
      .ok (lexId (c :: rest))
    else if c.isDigit then
      match lexNumChars (c :: rest) with
      | (run, rest2) => .ok (.NUMBER (digitsToInt run), rest2)
    else if c = '=' && rest.headD ' ' = '=' then .ok (.EQ, rest.tail)
    else if c = '!' && rest.headD ' ' = '=' then .ok (.NE, rest.tail)
    else if c = '<' && rest.headD ' ' = '=' then .ok (.LE, rest.tail)
    else if c = '>' && rest.headD ' ' = '=' then .ok (.GE, rest.tail)
    else if c = '=' then .ok (.EQUALS, rest)
    else if c = '<' then .ok (.LT, rest)
    else if c = '>' then .ok (.GT, rest)
    else if c = '+' then .ok (.PLUS, rest)
    else if c = '-' then .ok (.MINUS, rest)
    else if c = '*' then .ok (.MULTIPLY, rest)
    else if c = '/' then .ok (.DIVIDE, rest)
    else if c = '(' then .ok (.LPAREN, rest)
    else if c = ')' then .ok (.RPAREN, rest)
    else if c = '\x7b' then .ok (.LBRACE, rest)
    else if c = '\x7d' then .ok (.RBRACE, rest)
    else if c = ';' then .ok (.SEMI, rest)
    else .error .invalidChar

/-- Repeatedly call `getNextToken` until EOF, collecting the token stream the
parser will consume (the EOF sentinel is left implicit: the parser reads an
exhausted stream as EOF, like the Python lexer at end of input). -/
def tokenizeGo : Nat → List Char → Except Err (List Token)
  | 0, _ => .error .fuelOut
  | fuel + 1, cs =>
    match getNextToken cs with
    | .error e => .error e
    | .ok (.EOF, _) => .ok []
    | .ok (tok, rest) =>
      match tokenizeGo fuel rest with
      | .ok toks => .ok (tok :: toks)
      | .error e => .error e

/-- Tokenize a whole input; each produced token consumes at least one
character, so `length + 1` fuel always suffices. -/
def tokenize (cs : List Char) : Except Err (List Token) :=
  tokenizeGo (cs.length + 1) cs

/-! ## AST -/

/-- AST nodes: the dict-shaped nodes the Parser builds, one constructor per
value of the node's type tag. Binary operators carry the originating token's
type string (the parser stores the operator token; the evaluator dispatches
on its type), unary operators the string the parser writes directly. -/
inductive Node where
  | number (n : Int)
  | identifier (name : String)
  | unaryop (op : String) (expr : Node)
  | binop (op : String) (left right : Node)
  | assign (name : String) (value : Node)
  | printS (expr : Node)
  | ifS (cond : Node) (body : List Node) (elseBody : Option (List Node))
  | whileS (cond : Node) (body : List Node)
  | forS (init : Node) (cond : Node) (update : Node) (body : List Node)
deriving Repr

/-! ## Parser

State is the remaining token stream; the current token is its head, with EOF
read once the stream is exhausted (the Python lexer keeps returning EOF at
end of input). All parsing functions are fueled; `Err.fuelOut` is fuel
exhaustion, never a parse error of the program. -/

/-- The parser's current token (`self.current_token`). -/
def cur (ts : List Token) : Token :=
  ts.headD .EOF

/-- Advance past the current token (`self.current_token = get_next_token()`). -/
def adv (ts : List Token) : List Token :=
  ts.tail

/-- The function `Parser.eat`: advance when the current token has the expected type,
otherwise the contextual parse error. -/
def eat (k : String) (ts : List Token) : Except Err (List Token) :=
  if (cur ts).kindStr = k then .ok (adv ts)
  else .error (.parseErr ("Expected " ++ k ++ ", but got " ++ (cur ts).kindStr))

mutual

/-- The function `Parser.statement`: dispatch on the current token's type; any token that
opens no statement form is parsed as a bare expression. -/
def pStatement : Nat → List Token → Except Err (Node × List Token)
  | 0, _ => .error .fuelOut
  | fuel + 1, ts =>
    match cur ts with
    | .IF => pIf fuel ts
    | .WHILE => pWhile fuel ts
    | .FOR => pFor fuel ts
    | .IDENTIFIER _ => pAssign fuel ts
    | .PRINT => pPrint fuel ts
    | _ => pExpression fuel ts

/-- The function `Parser.if_stmt`. -/
def pIf : Nat → List Token → Except Err (Node × List Token)
  | 0, _ => .error .fuelOut
  | fuel + 1, ts =>
    match eat "IF" ts with
    | .error e => .error e
    | .ok ts =>
      match eat "LPAREN" ts with
      | .error e => .error e
      | .ok ts =>
        match pExpression fuel ts with
        | .error e => .error e
        | .ok (condition, ts) =>
          match eat "RPAREN" ts with
          | .error e => .error e
          | .ok ts =>
            match eat "LBRACE" ts with
            | .error e => .error e
            | .ok ts =>
              match pStatements fuel ts with
              | .error e => .error e
              | .ok (body, ts) =>
                match eat "RBRACE" ts with
                | .error e => .error e
                | .ok ts =>
                  match cur ts with
                  | .ELSE =>
                    match eat "ELSE" ts with
                    | .error e => .error e
                    | .ok ts =>
                      match eat "LBRACE" ts with
                      | .error e => .error e
                      | .ok ts =>
                        match pStatements fuel ts with
                        | .error e => .error e
                        | .ok (elseBody, ts) =>
                          match eat "RBRACE" ts with
                          | .error e => .error e
                          | .ok ts => .ok (.ifS condition body (some elseBody), ts)
                  | _ => .ok (.ifS condition body none, ts)

/-- The function `Parser.while_stmt`. -/
def pWhile : Nat → List Token → Except Err (Node × List Token)
  | 0, _ => .error .fuelOut
  | fuel + 1, ts =>
    match eat "WHILE" ts with
    | .error e => .error e
    | .ok ts =>
      match eat "LPAREN" ts with
      | .error e => .error e
      | .ok ts =>
        match pExpression fuel ts with
        | .error e => .error e
        | .ok (condition, ts) =>
          match eat "RPAREN" ts with
          | .error e => .error e
          | .ok ts =>
            match eat "LBRACE" ts with
            | .error e => .error e
            | .ok ts =>
              match pStatements fuel ts with
              | .error e => .error e
              | .ok (body, ts) =>
                match eat "RBRACE" ts with
                | .error e => .error e
                | .ok ts => .ok (.whileS condition body, ts)

/-- The function `Parser.for_stmt`: both the init and the update clause are full
assignment statements (each consumes its own terminating semicolon); the
middle condition's semicolon is eaten explicitly. -/
def pFor : Nat → List Token → Except Err (Node × List Token)
  | 0, _ => .error .fuelOut
  | fuel + 1, ts =>
    match eat "FOR" ts with
    | .error e => .error e
    | .ok ts =>
      match eat "LPAREN" ts with
      | .error e => .error e
      | .ok ts =>
        match pAssign fuel ts with
        | .error e => .error e
        | .ok (init, ts) =>
          match pExpression fuel ts with
          | .error e => .error e
          | .ok (condition, ts) =>
            match eat "SEMI" ts with
            | .error e => .error e
            | .ok ts =>
              match pAssign fuel ts with
              | .error e => .error e
              | .ok (update, ts) =>
                match eat "RPAREN" ts with
                | .error e => .error e
                | .ok ts =>
                  match eat "LBRACE" ts with
                  | .error e => .error e
                  | .ok ts =>
                    match pStatements fuel ts with
                    | .error e => .error e
                    | .ok (body, ts) =>
                      match eat "RBRACE" ts with
                      | .error e => .error e
                      | .ok ts => .ok (.forS init condition update body, ts)

/-- The function `Parser.assign_stmt`: IDENTIFIER '=' expression ';'. -/
def pAssign : Nat → List Token → Except Err (Node × List Token)
  | 0, _ => .error .fuelOut
  | fuel + 1, ts =>
    match cur ts with
    | .IDENTIFIER name =>
      match eat "EQUALS" (adv ts) with
      | .error e => .error e
      | .ok ts =>
        match pExpression fuel ts with
        | .error e => .error e
        | .ok (value, ts) =>
          match eat "SEMI" ts with
          | .error e => .error e
          | .ok ts => .ok (.assign name value, ts)
    | t => .error (.parseErr ("Expected IDENTIFIER, but got " ++ t.kindStr))

/-- The function `Parser.print_stmt`: 'print' '(' expression ')' ';'. -/
def pPrint : Nat → List Token → Except Err (Node × List Token)
  | 0, _ => .error .fuelOut
  | fuel + 1, ts =>
    match eat "PRINT" ts with
    | .error e => .error e
    | .ok ts =>
      match eat "LPAREN" ts with
      | .error e => .error e
      | .ok ts =>
        match pExpression fuel ts with
        | .error e => .error e
        | .ok (expr, ts) =>
          match eat "RPAREN" ts with
          | .error e => .error e
          | .ok ts =>
            match eat "SEMI" ts with
            | .error e => .error e
            | .ok ts => .ok (.printS expr, ts)

/-- The function `Parser.statements`: accumulate statements until the closing brace. -/
def pStatements : Nat → List Token → Except Err (List Node × List Token)
  | 0, _ => .error .fuelOut
  | fuel + 1, ts =>
    match cur ts with
    | .RBRACE => .ok ([], ts)
    | _ =>
      match pStatement fuel ts with
      | .error e => .error e
      | .ok (stmt, ts) =>
        match pStatements fuel ts with
        | .error e => .error e
        | .ok (stmts, ts) => .ok (stmt :: stmts, ts)

/-- The function `Parser.expression`: delegates to the lowest-precedence level. -/
def pExpression : Nat → List Token → Except Err (Node × List Token)
  | 0, _ => .error .fuelOut
  | fuel + 1, ts => pComparison fuel ts

/-- The function `Parser.comparison`: an arithmetic expression followed by a loop of
comparison operators. -/
def pComparison : Nat → List Token → Except Err (Node × List Token)
  | 0, _ => .error .fuelOut
  | fuel + 1, ts =>
    match pArithmetic fuel ts with
    | .error e => .error e
    | .ok (left, ts) => pCompLoop fuel left ts

/-- The operator loop of `Parser.comparison`; the operator token is captured
before advancing and its type string stored in the node. -/
def pCompLoop : Nat → Node → List Token → Except Err (Node × List Token)
  | 0, _, _ => .error .fuelOut
  | fuel + 1, left, ts =>
    match cur ts with
    | .EQ =>
      match pArithmetic fuel (adv ts) with
      | .error e => .error e
      | .ok (right, ts2) => pCompLoop fuel (.binop "EQ" left right) ts2
    | .NE =>
      match pArithmetic fuel (adv ts) with
      | .error e => .error e
      | .ok (right, ts2) => pCompLoop fuel (.binop "NE" left right) ts2
    | .LT =>
      match pArithmetic fuel (adv ts) with
      | .error e => .error e
      | .ok (right, ts2) => pCompLoop fuel (.binop "LT" left right) ts2
    | .GT =>
      match pArithmetic fuel (adv ts) with
      | .error e => .error e
      | .ok (right, ts2) => pCompLoop fuel (.binop "GT" left right) ts2
    | .LE =>
      match pArithmetic fuel (adv ts) with
      | .error e => .error e
      | .ok (right, ts2) => pCompLoop fuel (.binop "LE" left right) ts2
    | .GE =>
      match pArithmetic fuel (adv ts) with
      | .error e => .error e
      | .ok (right, ts2) => pCompLoop fuel (.binop "GE" left right) ts2
    | _ => .ok (left, ts)

/-- The function `Parser.arithmetic`: a term followed by a loop of additive operators. -/
def pArithmetic : Nat → List Token → Except Err (Node × List Token)
  | 0, _ => .error .fuelOut
  | fuel + 1, ts =>
    match pTerm fuel ts with
    | .error e => .error e
    | .ok (left, ts) => pArithLoop fuel left ts

/-- The operator loop of `Parser.arithmetic`. -/
def pArithLoop : Nat → Node → List Token → Except Err (Node × List Token)
  | 0, _, _ => .error .fuelOut
  | fuel + 1, left, ts =>
    match cur ts with
    | .PLUS =>
      match pTerm fuel (adv ts) with
      | .error e => .error e
      | .ok (right, ts2) => pArithLoop fuel (.binop "PLUS" left right) ts2
    | .MINUS =>
      match pTerm fuel (adv ts) with
      | .error e => .error e
      | .ok (right, ts2) => pArithLoop fuel (.binop "MINUS" left right) ts2
    | _ => .ok (left, ts)

/-- The function `Parser.term`: a factor followed by a loop of multiplicative operators. -/
def pTerm : Nat → List Token → Except Err (Node × List Token)
  | 0, _ => .error .fuelOut
  | fuel + 1, ts =>
    match pFactor fuel ts with
    | .error e => .error e
    | .ok (left, ts) => pTermLoop fuel left ts

/-- The operator loop of `Parser.term`. -/
def pTermLoop : Nat → Node → List Token → Except Err (Node × List Token)
  | 0, _, _ => .error .fuelOut
  | fuel + 1, left, ts =>
    match cur ts with
    | .MULTIPLY =>
      match pFactor fuel (adv ts) with
      | .error e => .error e
      | .ok (right, ts2) => pTermLoop fuel (.binop "MULTIPLY" left right) ts2
    | .DIVIDE =>
      match pFactor fuel (adv ts) with
      | .error e => .error e
      | .ok (right, ts2) => pTermLoop fuel (.binop "DIVIDE" left right) ts2
    | _ => .ok (left, ts)

/-- The function `Parser.factor`: number and identifier leaves, parenthesised expressions,
and unary plus/minus; anything else is the invalid-factor parse error. -/
def pFactor : Nat → List Token → Except Err (Node × List Token)
  | 0, _ => .error .fuelOut
  | fuel + 1, ts =>
    match cur ts with
    | .NUMBER n => .ok (.number n, adv ts)
    | .IDENTIFIER s => .ok (.identifier s, adv ts)
    | .LPAREN =>
      match pExpression fuel (adv ts) with
      | .error e => .error e
      | .ok (expr, ts2) =>
        match eat "RPAREN" ts2 with
        | .error e => .error e
        | .ok ts3 => .ok (expr, ts3)
    | .MINUS =>
      match pFactor fuel (adv ts) with
      | .error e => .error e
      | .ok (operand, ts2) => .ok (.unaryop "MINUS" operand, ts2)
    | .PLUS =>
      match pFactor fuel (adv ts) with
      | .error e => .error e
      | .ok (operand, ts2) => .ok (.unaryop "PLUS" operand, ts2)
    | _ => .error (.parseErr "Invalid factor")

end

/-- The function `Parser.parse`: accumulate statements until EOF. -/
def pParse : Nat → List Token → Except Err (List Node)
  | 0, _ => .error .fuelOut
  | fuel + 1, ts =>
    match cur ts with
    | .EOF => .ok []
    | _ =>
      match pStatement fuel ts with
      | .error e => .error e
      | .ok (stmt, ts) =>
        match pParse fuel ts with
        | .error e => .error e
        | .ok stmts => .ok (stmt :: stmts)

/-- Lex and parse one submitted text. The parser's recursion depth is
bounded by a small multiple of the token count, so this fuel always
suffices on texts the Python parser accepts. -/
def parseProgram (text : String) : Except Err (List Node) :=
  match tokenize text.data with
  | .error e => .error e
  | .ok toks => pParse (8 * toks.length + 8) toks

/-! ## Evaluator -/

/-- The global scope: an insertion-ordered mapping from variable name to
value, as a Python dict. -/
abbrev Env := List (String × Value)

/-- Dict lookup. -/
def envGet : Env → String → Option Value
  | [], _ => none
  | (k, v) :: rest, name => if k = name then some v else envGet rest name

/-- Dict write: overwrite in place when the key exists, else append. -/
def envSet : Env → String → Value → Env
  | [], name, v => [(name, v)]
  | (k, w) :: rest, name, v =>
    if k = name then (k, v) :: rest else (k, w) :: envSet rest name v

/-- The interpreter's mutable state: the global scope plus the values emitted
by `print` so far, in order (one list entry per print event). -/
structure St where
  env : Env
  out : List Value
deriving DecidableEq, Repr

/-- Result of a visit: normal return with a value (`vNone` for statements,
as Python methods returning nothing), an uncaught exception carrying the
state at the moment of the raise, or fuel exhaustion of the embedding. -/
inductive Res where
  | ok (st : St) (v : Value)
  | err (st : St) (e : Err)
  | nofuel
deriving DecidableEq, Repr

/-- Python numeric view used by `==`-with-0 tests, comparisons and division:
ints are themselves, floats are themselves, bools are 0/1, None is not a
number. -/
def Value.numView : Value → Option PyFloat
  | .vInt n => some (.ofInt n)
  | .vFloat q => some q
  | .vBool b => some (.ofInt (if b then 1 else 0))
  | .vNone => none

/-- Python int view for `+ - *` and unary operators: ints and bools (which
are ints in Python); floats and None are excluded. -/
def Value.intView : Value → Option Int
  | .vInt n => some n
  | .vBool b => some (if b then 1 else 0)
  | _ => none

/-- Python `+ - *` on this interpreter's values: int (or bool) operands give
an int, a float operand promotes to float, None is a TypeError. -/
def binArith (fi : Int → Int → Int) (fq : PyFloat → PyFloat → PyFloat)
    (a b : Value) : Except Err Value :=
  match a.intView, b.intView with
  | some x, some y => .ok (.vInt (fi x y))
  | _, _ =>
    match a.numView, b.numView with
    | some x, some y => .ok (.vFloat (fq x y))
    | _, _ => .error .typeErr

/-- Python `==` on this interpreter's values: numeric comparison across
kinds; None equals only None. Total, never raises. -/
def pyEq (a b : Value) : Value :=
  match a.numView, b.numView with
  | some x, some y => .vBool (x.feq y)
  | none, none => .vBool true
  | _, _ => .vBool false

/-- Python order comparisons: numeric across kinds, TypeError on None. -/
def pyCmp (f : PyFloat → PyFloat → Bool) (a b : Value) : Except Err Value :=
  match a.numView, b.numView with
  | some x, some y => .ok (.vBool (f x y))
  | _, _ => .error .typeErr

/-- The `right == 0` test guarding division: true for 0, 0.0 and False. -/
def isZeroVal (v : Value) : Bool :=
  match v.numView with
  | some q => q.isZero
  | none => false

/-- Python true division `left / right` (reached only with right nonzero):
always a float; None is a TypeError. -/
def pyDivide (a b : Value) : Except Err Value :=
  match a.numView, b.numView with
  | some x, some y => .ok (.vFloat (x.fdiv y))
  | _, _ => .error .typeErr

/-- The function `Interpreter.visit_binop`'s dispatch on the operator token's type, after
both operands are evaluated; unknown operator strings hit the defensive
raise. -/
def applyBin (op : String) (l r : Value) : Except Err Value :=
  if op = "PLUS" then binArith (· + ·) PyFloat.fadd l r
  else if op = "MINUS" then binArith (· - ·) PyFloat.fsub l r
  else if op = "MULTIPLY" then binArith (· * ·) PyFloat.fmul l r
  else if op = "DIVIDE" then
    if isZeroVal r then .error .divByZero else pyDivide l r
  else if op = "EQ" then .ok (pyEq l r)
  else if op = "NE" then
    match pyEq l r with
    | .vBool b => .ok (.vBool (!b))
    | v => .ok v
  else if op = "LT" then pyCmp PyFloat.flt l r
  else if op = "GT" then pyCmp (fun x y => PyFloat.flt y x) l r
  else if op = "LE" then pyCmp PyFloat.fle l r
  else if op = "GE" then pyCmp (fun x y => PyFloat.fle y x) l r
  else .error (.unsuppBinop op)

/-- The function `Interpreter.visit_unaryop`'s dispatch: negation, no-op plus (which still
coerces a bool to an int, as CPython's unary plus does), and the defensive
raise on unknown operator strings. -/
def applyUn (op : String) (v : Value) : Except Err Value :=
  if op = "MINUS" then
    match v.intView with
    | some n => .ok (.vInt (-n))
    | none =>
      match v.numView with
      | some q => .ok (.vFloat q.fneg)
      | none => .error .typeErr
  else if op = "PLUS" then
    match v.intView with
    | some n => .ok (.vInt n)
    | none =>
      match v.numView with
      | some q => .ok (.vFloat q)
      | none => .error .typeErr
  else .error (.unsuppUnop op)

/-- Python truthiness of this interpreter's values (`if`/`while` condition
use): nonzero numerics are true, None is false. -/
def truthy (v : Value) : Bool :=
  match v.numView with
  | some q => !q.isZero
  | none => false

mutual

/-- The function `Interpreter.visit`: dispatch on the node's type tag. Every recursive
call decrements the fuel; `Res.nofuel` reports exhaustion. -/
def visit : Nat → Node → St → Res
  | 0, _, _ => .nofuel
  | fuel + 1, node, st =>
    match node with
    | .number n => .ok st (.vInt n)
    | .identifier name =>
      match envGet st.env name with
      | some v => .ok st v
      | none => .err st (.nameErr name)
    | .unaryop op e =>
      match visit fuel e st with
      | .ok st1 v =>
        match applyUn op v with
        | .ok w => .ok st1 w
        | .error er => .err st1 er
      | r => r
    | .binop op l r =>
      match visit fuel l st with
      | .ok st1 lv =>
        match visit fuel r st1 with
        | .ok st2 rv =>
          match applyBin op lv rv with
          | .ok w => .ok st2 w
          | .error er => .err st2 er
        | r2 => r2
      | r1 => r1
    | .assign name e =>
      match visit fuel e st with
      | .ok st1 v => .ok { st1 with env := envSet st1.env name v } .vNone
      | r => r
    | .printS e =>
      match visit fuel e st with
      | .ok st1 v => .ok { st1 with out := st1.out ++ [v] } .vNone
      | r => r
    | .ifS c body elseBody =>
      match visit fuel c st with
      | .ok st1 cv =>
        if truthy cv then visitSeq fuel body st1
        else
          match elseBody with
          | some eb => visitSeq fuel eb st1
          | none => .ok st1 .vNone
      | r => r
    | .whileS c body =>
      whileLoop fuel c body st
    | .forS init c update body =>
      match visit fuel init st with
      | .ok st1 _ => forLoop fuel c update body st1
      | r => r

/-- Executing a statement list in order (the `for stmt in ...: self.visit`
loops); an uncaught exception aborts the rest of the list. -/
def visitSeq : Nat → List Node → St → Res
  | 0, _, _ => .nofuel
  | _ + 1, [], st => .ok st .vNone
  | fuel + 1, n :: ns, st =>
    match visit fuel n st with
    | .ok st1 _ => visitSeq fuel ns st1
    | r => r

/-- The function `Interpreter.visit_while`: re-evaluate the condition before every
iteration. -/
def whileLoop : Nat → Node → List Node → St → Res
  | 0, _, _, _ => .nofuel
  | fuel + 1, c, body, st =>
    match visit fuel c st with
    | .ok st1 cv =>
      if truthy cv then
        match visitSeq fuel body st1 with
        | .ok st2 _ => whileLoop fuel c body st2
        | r => r
      else .ok st1 .vNone
    | r => r

/-- The loop of `Interpreter.visit_for`: condition, body, then the update
statement, before the next condition check. -/
def forLoop : Nat → Node → Node → List Node → St → Res
  | 0, _, _, _, _ => .nofuel
  | fuel + 1, c, update, body, st =>
    match visit fuel c st with
    | .ok st1 cv =>
      if truthy cv then
        match visitSeq fuel body st1 with
        | .ok st2 _ =>
          match visit fuel update st2 with
          | .ok st3 _ => forLoop fuel c update body st3
          | r => r
        | r => r
      else .ok st1 .vNone
    | r => r

end

/-- One REPL turn on an already-accumulated text (`Interpreter.interpret`
inside `main`'s try): lex, parse, then execute the statements in order
against the carried-over environment. The result is the environment
afterwards (on an exception: as already mutated, since the dict is shared by
reference), the values printed, and the reported error if any. -/
def interpretTurn (fuel : Nat) (text : String) (env : Env) :
    Env × List Value × Option Err :=
  match parseProgram text with
  | .error e => (env, [], some e)
  | .ok stmts =>
    match visitSeq fuel stmts ⟨env, []⟩ with
    | .ok st _ => (st.env, st.out, none)
    | .err st e => (st.env, st.out, some e)
    | .nofuel => (env, [], some .fuelOut)

/-! ## Well-formedness of parser output -/

/-- The operator token types `visit_binop` handles. -/
def binopOk (op : String) : Bool :=
  op = "PLUS" || op = "MINUS" || op = "MULTIPLY" || op = "DIVIDE" ||
  op = "EQ" || op = "NE" || op = "LT" || op = "GT" || op = "LE" || op = "GE"

/-- The operator strings `visit_unaryop` handles. -/
def unopOk (op : String) : Bool :=
  op = "MINUS" || op = "PLUS"

mutual

/-- An expression node as the expression grammar produces it: number and
identifier leaves, unary and binary operations with handled operator tags.
Assignment and statement nodes are not expressions. -/
def exprB : Node → Bool
  | .number _ => true
  | .identifier _ => true
  | .unaryop op e => unopOk op && exprB e
  | .binop op l r => binopOk op && exprB l && exprB r
  | _ => false

/-- A statement node as the statement grammar produces it; a bare expression
is also a statement. -/
def wfB : Node → Bool
  | .number _ => true
  | .identifier _ => true
  | .unaryop op e => unopOk op && exprB e
  | .binop op l r => binopOk op && exprB l && exprB r
  | .assign _ e => exprB e
  | .printS e => exprB e
  | .ifS c body elseBody =>
    exprB c && wfList body &&
      (match elseBody with
       | some eb => wfList eb
       | none => true)
  | .whileS c body => exprB c && wfList body
  | .forS init c update body => wfB init && exprB c && wfB update && wfList body

/-- Every node of the list is a well-formed statement. -/
def wfList : List Node → Bool
  | [] => true
  | n :: ns => wfB n && wfList ns

end

/-- Every expression node is a well-formed (bare-expression) statement. -/
theorem exprB_wf : ∀ n, exprB n = true → wfB n = true := by
  intro n h
  cases n <;> simp_all [exprB, wfB]

/-- Every parsing function only builds well-formed nodes: node kinds drawn
from the AST variant set, binary operators drawn from the ten handled token
types, unary operators from MINUS/PLUS, assignment right-hand sides from the
expression grammar. Proved for all parser entry points simultaneously, by
induction on the parser's fuel. -/
theorem parser_wf : ∀ fuel,
    (∀ ts n ts', pStatement fuel ts = .ok (n, ts') → wfB n = true) ∧
    (∀ ts n ts', pIf fuel ts = .ok (n, ts') → wfB n = true) ∧
    (∀ ts n ts', pWhile fuel ts = .ok (n, ts') → wfB n = true) ∧
    (∀ ts n ts', pFor fuel ts = .ok (n, ts') → wfB n = true) ∧
    (∀ ts n ts', pAssign fuel ts = .ok (n, ts') → wfB n = true) ∧
    (∀ ts n ts', pPrint fuel ts = .ok (n, ts') → wfB n = true) ∧
    (∀ ts l ts', pStatements fuel ts = .ok (l, ts') → wfList l = true) ∧
    (∀ ts n ts', pExpression fuel ts = .ok (n, ts') → exprB n = true) ∧
    (∀ ts n ts', pComparison fuel ts = .ok (n, ts') → exprB n = true) ∧
    (∀ left ts n ts', exprB left = true →
      pCompLoop fuel left ts = .ok (n, ts') → exprB n = true) ∧
    (∀ ts n ts', pArithmetic fuel ts = .ok (n, ts') → exprB n = true) ∧
    (∀ left ts n ts', exprB left = true →
      pArithLoop fuel left ts = .ok (n, ts') → exprB n = true) ∧
    (∀ ts n ts', pTerm fuel ts = .ok (n, ts') → exprB n = true) ∧
    (∀ left ts n ts', exprB left = true →
      pTermLoop fuel left ts = .ok (n, ts') → exprB n = true) ∧
    (∀ ts n ts', pFactor fuel ts = .ok (n, ts') → exprB n = true) := by
  intro fuel
  induction fuel with
  | zero =>
    refine ⟨?_, ?_, ?_, ?_, ?_, ?_, ?_, ?_, ?_, ?_, ?_, ?_, ?_, ?_, ?_⟩ <;> first
      | (intro ts n ts' h;
         exact absurd h (by simp [pStatement, pIf, pWhile, pFor, pAssign,
           pPrint, pStatements, pExpression, pComparison, pArithmetic, pTerm,
           pFactor]))
      | (intro left ts n ts' hl h;
         exact absurd h (by simp [pCompLoop, pArithLoop, pTermLoop]))
  | succ fuel ih =>
    obtain ⟨ihStmt, ihIf, ihWhile, ihFor, ihAssign, ihPrint, ihStmts, ihExpr,
      ihComp, ihCompL, ihArith, ihArithL, ihTerm, ihTermL, ihFactor⟩ := ih
    refine ⟨?_, ?_, ?_, ?_, ?_, ?_, ?_, ?_, ?_, ?_, ?_, ?_, ?_, ?_, ?_⟩
    · -- pStatement: dispatch
      intro ts n ts' h
      rw [pStatement] at h
      split at h
      · exact ihIf _ _ _ h
      · exact ihWhile _ _ _ h
      · exact ihFor _ _ _ h
      · exact ihAssign _ _ _ h
      · exact ihPrint _ _ _ h
      · exact exprB_wf _ (ihExpr _ _ _ h)
    · -- pIf
      intro ts n ts' h
      rw [pIf] at h
      repeat' split at h
      all_goals try (exact Except.noConfusion h)
      all_goals simp only [Except.ok.injEq, Prod.mk.injEq] at h
      all_goals obtain ⟨rfl, rfl⟩ := h
      all_goals simp only [wfB, Bool.and_eq_true]
      · exact ⟨⟨ihExpr _ _ _ (by assumption), ihStmts _ _ _ (by assumption)⟩,
          ihStmts _ _ _ (by assumption)⟩
      · exact ⟨⟨ihExpr _ _ _ (by assumption), ihStmts _ _ _ (by assumption)⟩,
          trivial⟩
    · -- pWhile
      intro ts n ts' h
      rw [pWhile] at h
      repeat' split at h
      all_goals try (exact Except.noConfusion h)
      all_goals simp only [Except.ok.injEq, Prod.mk.injEq] at h
      all_goals obtain ⟨rfl, rfl⟩ := h
      simp only [wfB, Bool.and_eq_true]
      exact ⟨ihExpr _ _ _ (by assumption), ihStmts _ _ _ (by assumption)⟩
    · -- pFor
      intro ts n ts' h
      rw [pFor] at h
      repeat' split at h
      all_goals try (exact Except.noConfusion h)
      all_goals simp only [Except.ok.injEq, Prod.mk.injEq] at h
      all_goals obtain ⟨rfl, rfl⟩ := h
      simp only [wfB, Bool.and_eq_true]
      exact ⟨⟨⟨ihAssign _ _ _ (by assumption), ihExpr _ _ _ (by assumption)⟩,
        ihAssign _ _ _ (by assumption)⟩, ihStmts _ _ _ (by assumption)⟩
    · -- pAssign
      intro ts n ts' h
      rw [pAssign] at h
      repeat' split at h
      all_goals try (exact Except.noConfusion h)
      all_goals simp only [Except.ok.injEq, Prod.mk.injEq] at h
      all_goals obtain ⟨rfl, rfl⟩ := h
      simp only [wfB]
      exact ihExpr _ _ _ (by assumption)
    · -- pPrint
      intro ts n ts' h
      rw [pPrint] at h
      repeat' split at h
      all_goals try (exact Except.noConfusion h)
      all_goals simp only [Except.ok.injEq, Prod.mk.injEq] at h
      all_goals obtain ⟨rfl, rfl⟩ := h
      simp only [wfB]
      exact ihExpr _ _ _ (by assumption)
    · -- pStatements
      intro ts l ts' h
      rw [pStatements] at h
      repeat' split at h
      all_goals try (exact Except.noConfusion h)
      all_goals simp only [Except.ok.injEq, Prod.mk.injEq] at h
      all_goals obtain ⟨rfl, rfl⟩ := h
      · rfl
      · simp only [wfList, Bool.and_eq_true]
        exact ⟨ihStmt _ _ _ (by assumption), ihStmts _ _ _ (by assumption)⟩
    · -- pExpression
      intro ts n ts' h
      rw [pExpression] at h
      exact ihComp _ _ _ h
    · -- pComparison
      intro ts n ts' h
      rw [pComparison] at h
      split at h
      · exact Except.noConfusion h
      · exact ihCompL _ _ _ _ (ihArith _ _ _ (by assumption)) h
    · -- pCompLoop
      intro left ts n ts' hl h
      rw [pCompLoop] at h
      repeat' split at h
      all_goals try (exact Except.noConfusion h)
      any_goals exact ihCompL _ _ _ _ (by
        simp only [exprB, Bool.and_eq_true]
        exact ⟨⟨by decide, hl⟩, ihArith _ _ _ (by assumption)⟩) h
      simp only [Except.ok.injEq, Prod.mk.injEq] at h
      obtain ⟨rfl, rfl⟩ := h
      exact hl
    · -- pArithmetic
      intro ts n ts' h
      rw [pArithmetic] at h
      split at h
      · exact Except.noConfusion h
      · exact ihArithL _ _ _ _ (ihTerm _ _ _ (by assumption)) h
    · -- pArithLoop
      intro left ts n ts' hl h
      rw [pArithLoop] at h
      repeat' split at h
      all_goals try (exact Except.noConfusion h)
      any_goals exact ihArithL _ _ _ _ (by
        simp only [exprB, Bool.and_eq_true]
        exact ⟨⟨by decide, hl⟩, ihTerm _ _ _ (by assumption)⟩) h
      simp only [Except.ok.injEq, Prod.mk.injEq] at h
      obtain ⟨rfl, rfl⟩ := h
      exact hl
    · -- pTerm
      intro ts n ts' h
      rw [pTerm] at h
      split at h
      · exact Except.noConfusion h
      · exact ihTermL _ _ _ _ (ihFactor _ _ _ (by assumption)) h
    · -- pTermLoop
      intro left ts n ts' hl h
      rw [pTermLoop] at h
      repeat' split at h
      all_goals try (exact Except.noConfusion h)
      any_goals exact ihTermL _ _ _ _ (by
        simp only [exprB, Bool.and_eq_true]
        exact ⟨⟨by decide, hl⟩, ihFactor _ _ _ (by assumption)⟩) h
      simp only [Except.ok.injEq, Prod.mk.injEq] at h
      obtain ⟨rfl, rfl⟩ := h
      exact hl
    · -- pFactor
      intro ts n ts' h
      rw [pFactor] at h
      repeat' split at h
      all_goals try (exact Except.noConfusion h)
      all_goals simp only [Except.ok.injEq, Prod.mk.injEq] at h
      all_goals obtain ⟨rfl, rfl⟩ := h
      · rfl
      · rfl
      · exact ihExpr _ _ _ (by assumption)
      · simp only [exprB, Bool.and_eq_true]
        exact ⟨by decide, ihFactor _ _ _ (by assumption)⟩
      · simp only [exprB, Bool.and_eq_true]
        exact ⟨by decide, ihFactor _ _ _ (by assumption)⟩

/-- Well-formedness of `Parser.parse` output: every statement of a
successfully parsed program is well-formed. -/
theorem pParse_wf : ∀ fuel ts l, pParse fuel ts = .ok l → wfList l = true := by
  intro fuel
  induction fuel with
  | zero => intro ts l h; simp [pParse] at h
  | succ fuel ih =>
    intro ts l h
    rw [pParse] at h
    repeat' split at h
    all_goals try (exact Except.noConfusion h)
    all_goals simp only [Except.ok.injEq] at h
    all_goals subst h
    · rfl
    · simp only [wfList, Bool.and_eq_true]
      exact ⟨(parser_wf fuel).1 _ _ _ (by assumption), ih _ _ (by assumption)⟩

/-- Well-formedness of the whole front end: every statement list produced by
lexing-then-parsing a text is well-formed. -/
theorem parseProgram_wf : ∀ text l, parseProgram text = .ok l → wfList l = true := by
  intro text l h
  rw [parseProgram] at h
  split at h
  · exact Except.noConfusion h
  · exact pParse_wf _ _ _ h

/-! ## Evaluator lemmas -/

/-- A value the environment may legitimately hold: an int, float or bool,
never Python's None. -/
def goodVal : Value → Bool
  | .vNone => false
  | _ => true

/-- Every value in the environment is an int, float or bool. -/
def envGood (env : Env) : Bool :=
  env.all fun p => goodVal p.2

/-- Evaluating an expression node (as the expression grammar produces them)
is pure: it can run out of fuel, return a value, or raise — but the state it
hands back is exactly the state it was given. -/
theorem expr_pure : ∀ fuel e st, exprB e = true →
    visit fuel e st = .nofuel ∨ (∃ v, visit fuel e st = .ok st v) ∨
      (∃ er, visit fuel e st = .err st er) := by
  intro fuel
  induction fuel with
  | zero => intro e st he; left; rfl
  | succ fuel ih =>
    intro e st he
    cases e with
    | number n => exact Or.inr (Or.inl ⟨_, rfl⟩)
    | identifier name =>
      rw [visit]
      cases henv : envGet st.env name with
      | some v => exact Or.inr (Or.inl ⟨v, by simp [henv]⟩)
      | none => exact Or.inr (Or.inr ⟨.nameErr name, by simp [henv]⟩)
    | unaryop op e =>
      simp only [exprB, Bool.and_eq_true] at he
      rcases ih e st he.2 with hn | ⟨v, hv⟩ | ⟨er, herr⟩
      · left; rw [visit]; simp only [hn]
      · cases hau : applyUn op v with
        | ok w => exact Or.inr (Or.inl ⟨w, by rw [visit]; simp [hv, hau]⟩)
        | error er => exact Or.inr (Or.inr ⟨er, by rw [visit]; simp [hv, hau]⟩)
      · exact Or.inr (Or.inr ⟨er, by rw [visit]; simp [herr]⟩)
    | binop op l r =>
      simp only [exprB, Bool.and_eq_true] at he
      rcases ih l st he.1.2 with hn | ⟨lv, hlv⟩ | ⟨er, herr⟩
      · left; rw [visit]; simp only [hn]
      · rcases ih r st he.2 with hn2 | ⟨rv, hrv⟩ | ⟨er2, herr2⟩
        · left; rw [visit]; simp only [hlv, hn2]
        · cases hab : applyBin op lv rv with
          | ok w =>
            exact Or.inr (Or.inl ⟨w, by rw [visit]; simp [hlv, hrv, hab]⟩)
          | error er =>
            exact Or.inr (Or.inr ⟨er, by rw [visit]; simp [hlv, hrv, hab]⟩)
        · exact Or.inr (Or.inr ⟨er2, by rw [visit]; simp [hlv, herr2]⟩)
      · exact Or.inr (Or.inr ⟨er, by rw [visit]; simp [herr]⟩)
    | assign name e => exact absurd he (by simp [exprB])
    | printS e => exact absurd he (by simp [exprB])
    | ifS c b eb => exact absurd he (by simp [exprB])
    | whileS c b => exact absurd he (by simp [exprB])
    | forS i c u b => exact absurd he (by simp [exprB])

/-- On a successful expression evaluation the state is unchanged. -/
theorem expr_pure_ok : ∀ fuel e st st2 v, exprB e = true →
    visit fuel e st = .ok st2 v → st2 = st := by
  intro fuel e st st2 v he h
  rcases expr_pure fuel e st he with hn | ⟨w, hw⟩ | ⟨er, herr⟩
  · rw [h] at hn; exact Res.noConfusion hn
  · rw [h] at hw; cases hw; rfl
  · rw [h] at herr; exact Res.noConfusion herr

/-- On a raising expression evaluation the state is unchanged. -/
theorem expr_pure_err : ∀ fuel e st st2 er, exprB e = true →
    visit fuel e st = .err st2 er → st2 = st := by
  intro fuel e st st2 er he h
  rcases expr_pure fuel e st he with hn | ⟨w, hw⟩ | ⟨er2, herr⟩
  · rw [h] at hn; exact Res.noConfusion hn
  · rw [h] at hw; exact Res.noConfusion hw
  · rw [h] at herr; cases herr; rfl

/-- A lookup in a good environment yields a good value. -/
theorem envGet_good : ∀ env name v, envGood env = true →
    envGet env name = some v → goodVal v = true := by
  intro env
  induction env with
  | nil => intro name v _ h; exact Option.noConfusion h
  | cons p rest ih =>
    intro name v hg h
    simp only [envGood, List.all_cons, Bool.and_eq_true] at hg
    rw [envGet] at h
    split at h
    · cases h; exact hg.1
    · exact ih _ _ (by simp [envGood, hg.2]) h

/-- Writing a good value into a good environment keeps it good. -/
theorem envSet_good : ∀ env name v, envGood env = true → goodVal v = true →
    envGood (envSet env name v) = true := by
  intro env
  induction env with
  | nil => intro name v _ hv; simp [envSet, envGood, hv]
  | cons p rest ih =>
    intro name v hg hv
    simp only [envGood, List.all_cons, Bool.and_eq_true] at hg
    rw [envSet]
    split
    · simp [envGood, hv, hg.2]
    · simp only [envGood, List.all_cons, Bool.and_eq_true]
      exact ⟨hg.1, ih _ _ (by simp [envGood, hg.2]) hv⟩

/-- The function `binArith` only returns ints and floats. -/
theorem binArith_ok_good : ∀ fi fq a b v, binArith fi fq a b = .ok v →
    goodVal v = true := by
  intro fi fq a b v h
  rw [binArith] at h
  repeat' split at h
  all_goals first
    | (cases h; rfl)
    | exact Except.noConfusion h

/-- The function `pyEq` always returns a bool. -/
theorem pyEq_good : ∀ a b, goodVal (pyEq a b) = true := by
  intro a b
  rw [pyEq]
  repeat' split
  all_goals rfl

/-- The function `pyDivide` only returns floats. -/
theorem pyDivide_ok_good : ∀ a b v, pyDivide a b = .ok v → goodVal v = true := by
  intro a b v h
  rw [pyDivide] at h
  repeat' split at h
  all_goals first
    | (cases h; rfl)
    | exact Except.noConfusion h

/-- The function `pyCmp` only returns bools. -/
theorem pyCmp_ok_good : ∀ (f : PyFloat → PyFloat → Bool) a b v,
    pyCmp f a b = .ok v → goodVal v = true := by
  intro f a b v h
  rw [pyCmp] at h
  repeat' split at h
  all_goals first
    | (cases h; rfl)
    | exact Except.noConfusion h

/-- Every value `visit_binop` can return is an int, float or bool. -/
theorem applyBin_ok_good : ∀ op l r v, applyBin op l r = .ok v →
    goodVal v = true := by
  intro op l r v h
  rw [applyBin] at h
  repeat' split at h
  all_goals try exact Except.noConfusion h
  all_goals try (exact binArith_ok_good _ _ _ _ _ h)
  all_goals try (exact pyDivide_ok_good _ _ _ h)
  all_goals try (exact pyCmp_ok_good _ _ _ _ h)
  all_goals try (cases h; rfl)
  all_goals cases h
  all_goals exact pyEq_good _ _

/-- Every value `visit_unaryop` can return is an int or float. -/
theorem applyUn_ok_good : ∀ op w v, applyUn op w = .ok v →
    goodVal v = true := by
  intro op w v h
  rw [applyUn] at h
  repeat' split at h
  all_goals try exact Except.noConfusion h
  all_goals (cases h; rfl)

/-- A successful expression evaluation in a good environment produces an
int, float or bool — never None. In particular assignment right-hand sides
only ever store such values. -/
theorem expr_ok_good : ∀ fuel e st st2 v, exprB e = true →
    envGood st.env = true → visit fuel e st = .ok st2 v → goodVal v = true := by
  intro fuel e st st2 v he hg h
  cases fuel with
  | zero => exact Res.noConfusion h
  | succ fuel =>
    cases e with
    | number n => rw [visit] at h; cases h; rfl
    | identifier name =>
      rw [visit] at h
      cases henv : envGet st.env name with
      | some w =>
        simp only [henv] at h; cases h; exact envGet_good _ _ _ hg henv
      | none => simp only [henv] at h; exact Res.noConfusion h
    | unaryop op e =>
      rw [visit] at h
      cases hv : visit fuel e st with
      | ok st1 w =>
        simp only [hv] at h
        cases hau : applyUn op w with
        | ok u => simp only [hau] at h; cases h; exact applyUn_ok_good _ _ _ hau
        | error er => simp only [hau] at h; exact Res.noConfusion h
      | err st1 er => simp only [hv] at h; exact Res.noConfusion h
      | nofuel => simp only [hv] at h; exact Res.noConfusion h
    | binop op l r =>
      rw [visit] at h
      cases hlv : visit fuel l st with
      | ok st1 lv =>
        simp only [hlv] at h
        cases hrv : visit fuel r st1 with
        | ok st2' rv =>
          simp only [hrv] at h
          cases hab : applyBin op lv rv with
          | ok u =>
            simp only [hab] at h; cases h; exact applyBin_ok_good _ _ _ _ hab
          | error er => simp only [hab] at h; exact Res.noConfusion h
        | err st2' er => simp only [hrv] at h; exact Res.noConfusion h
        | nofuel => simp only [hrv] at h; exact Res.noConfusion h
      | err st1 er => simp only [hlv] at h; exact Res.noConfusion h
      | nofuel => simp only [hlv] at h; exact Res.noConfusion h
    | assign name e => exact absurd he (by simp [exprB])
    | printS e => exact absurd he (by simp [exprB])
    | ifS c b eb => exact absurd he (by simp [exprB])
    | whileS c b => exact absurd he (by simp [exprB])
    | forS i c u b => exact absurd he (by simp [exprB])

/-- The environment a result carries is good (trivially true for fuel
exhaustion, which carries no state). -/
def resEnvGood : Res → Bool
  | .ok st _ => envGood st.env
  | .err st _ => envGood st.env
  | .nofuel => true

/-- Preservation of the environment invariant: executing any well-formed
statement (or statement list, or loop) from a good environment leaves a good
environment behind, whether it returns normally or raises. Proved for the
four mutually recursive evaluator functions simultaneously by induction on
fuel. -/
theorem run_envGood : ∀ fuel,
    (∀ n st, wfB n = true → envGood st.env = true →
      resEnvGood (visit fuel n st) = true) ∧
    (∀ l st, wfList l = true → envGood st.env = true →
      resEnvGood (visitSeq fuel l st) = true) ∧
    (∀ c b st, exprB c = true → wfList b = true → envGood st.env = true →
      resEnvGood (whileLoop fuel c b st) = true) ∧
    (∀ c u b st, exprB c = true → wfB u = true → wfList b = true →
      envGood st.env = true → resEnvGood (forLoop fuel c u b st) = true) := by
  intro fuel
  induction fuel with
  | zero =>
    exact ⟨fun n st _ _ => rfl, fun l st _ _ => rfl,
      fun c b st _ _ _ => rfl, fun c u b st _ _ _ _ => rfl⟩
  | succ fuel ih =>
    obtain ⟨ihV, ihS, ihW, ihF⟩ := ih
    refine ⟨?_, ?_, ?_, ?_⟩
    · -- visit
      intro n st hwf hg
      cases n with
      | number n => exact hg
      | identifier name =>
        simp only [visit]
        cases henv : envGet st.env name with
        | some v => exact hg
        | none => exact hg
      | unaryop op e =>
        have he : exprB (.unaryop op e) = true := by
          rw [wfB.eq_def] at hwf; rw [exprB.eq_def]; exact hwf
        rcases expr_pure (fuel + 1) _ st he with hn | ⟨v, hv⟩ | ⟨er, herr⟩
        · rw [hn]; rfl
        · rw [hv]; exact hg
        · rw [herr]; exact hg
      | binop op l r =>
        have he : exprB (.binop op l r) = true := by
          rw [wfB.eq_def] at hwf; rw [exprB.eq_def]; exact hwf
        rcases expr_pure (fuel + 1) _ st he with hn | ⟨v, hv⟩ | ⟨er, herr⟩
        · rw [hn]; rfl
        · rw [hv]; exact hg
        · rw [herr]; exact hg
      | assign name e =>
        have he : exprB e = true := by rw [wfB.eq_def] at hwf; exact hwf
        simp only [visit]
        cases hv : visit fuel e st with
        | ok st1 v =>
          simp only [hv]
          rw [expr_pure_ok fuel e st st1 v he hv]
          exact envSet_good _ _ _ hg (expr_ok_good fuel e st st1 v he hg hv)
        | err st1 er =>
          simp only [hv]
          rw [expr_pure_err fuel e st st1 er he hv]
          exact hg
        | nofuel => simp only [hv]; rfl
      | printS e =>
        have he : exprB e = true := by rw [wfB.eq_def] at hwf; exact hwf
        simp only [visit]
        cases hv : visit fuel e st with
        | ok st1 v =>
          simp only [hv]
          rw [expr_pure_ok fuel e st st1 v he hv]
          exact hg
        | err st1 er =>
          simp only [hv]
          rw [expr_pure_err fuel e st st1 er he hv]
          exact hg
        | nofuel => simp only [hv]; rfl
      | ifS c b eb =>
        rw [wfB.eq_def] at hwf
        simp only [Bool.and_eq_true] at hwf
        simp only [visit]
        cases hv : visit fuel c st with
        | ok st1 cv =>
          simp only [hv]
          rw [expr_pure_ok fuel c st st1 cv hwf.1.1 hv]
          split
          · exact ihS _ _ hwf.1.2 hg
          · cases eb with
            | some ebl => exact ihS _ _ hwf.2 hg
            | none => exact hg
        | err st1 er =>
          simp only [hv]
          rw [expr_pure_err fuel c st st1 er hwf.1.1 hv]
          exact hg
        | nofuel => simp only [hv]; rfl
      | whileS c b =>
        rw [wfB.eq_def] at hwf
        simp only [Bool.and_eq_true] at hwf
        simp only [visit]
        exact ihW _ _ _ hwf.1 hwf.2 hg
      | forS i c u b =>
        rw [wfB.eq_def] at hwf
        simp only [Bool.and_eq_true] at hwf
        simp only [visit]
        cases hv : visit fuel i st with
        | ok st1 v =>
          simp only [hv]
          have hg1 : envGood st1.env = true := by
            have h2 := ihV i st hwf.1.1.1 hg; rwa [hv] at h2
          exact ihF _ _ _ _ hwf.1.1.2 hwf.1.2 hwf.2 hg1
        | err st1 er =>
          simp only [hv]
          have h2 := ihV i st hwf.1.1.1 hg; rwa [hv] at h2
        | nofuel => simp only [hv]; rfl
    · -- visitSeq
      intro l st hwf hg
      cases l with
      | nil => exact hg
      | cons n ns =>
        rw [wfList.eq_def] at hwf
        simp only [Bool.and_eq_true] at hwf
        simp only [visitSeq]
        cases hv : visit fuel n st with
        | ok st1 v =>
          simp only [hv]
          have hg1 : envGood st1.env = true := by
            have h2 := ihV n st hwf.1 hg; rwa [hv] at h2
          exact ihS _ _ hwf.2 hg1
        | err st1 er =>
          simp only [hv]
          have h2 := ihV n st hwf.1 hg; rwa [hv] at h2
        | nofuel => simp only [hv]; rfl
    · -- whileLoop
      intro c b st hc hb hg
      simp only [whileLoop]
      cases hv : visit fuel c st with
      | ok st1 cv =>
        simp only [hv]
        rw [expr_pure_ok fuel c st st1 cv hc hv]
        split
        · cases hs : visitSeq fuel b st with
          | ok st2 v =>
            simp only [hs]
            have hg2 : envGood st2.env = true := by
              have h2 := ihS b st hb hg; rwa [hs] at h2
            exact ihW _ _ _ hc hb hg2
          | err st2 er =>
            simp only [hs]
            have h2 := ihS b st hb hg; rwa [hs] at h2
          | nofuel => simp only [hs]; rfl
        · exact hg
      | err st1 er =>
        simp only [hv]
        rw [expr_pure_err fuel c st st1 er hc hv]
        exact hg
      | nofuel => simp only [hv]; rfl
    · -- forLoop
      intro c u b st hc hu hb hg
      simp only [forLoop]
      cases hv : visit fuel c st with
      | ok st1 cv =>
        simp only [hv]
        rw [expr_pure_ok fuel c st st1 cv hc hv]
        split
        · cases hs : visitSeq fuel b st with
          | ok st2 v =>
            simp only [hs]
            have hg2 : envGood st2.env = true := by
              have h2 := ihS b st hb hg; rwa [hs] at h2
            cases hup : visit fuel u st2 with
            | ok st3 v2 =>
              simp only [hup]
              have hg3 : envGood st3.env = true := by
                have h2 := ihV u st2 hu hg2; rwa [hup] at h2
              exact ihF _ _ _ _ hc hu hb hg3
            | err st3 er =>
              simp only [hup]
              have h2 := ihV u st2 hu hg2; rwa [hup] at h2
            | nofuel => simp only [hup]; rfl
          | err st2 er =>
            simp only [hs]
            have h2 := ihS b st hb hg; rwa [hs] at h2
          | nofuel => simp only [hs]; rfl
        · exact hg
      | err st1 er =>
        simp only [hv]
        rw [expr_pure_err fuel c st st1 er hc hv]
        exact hg
      | nofuel => simp only [hv]; rfl

/-! ## The defensive unsupported-operator branches -/

/-- The two defensive raises of the Evaluator. -/
def isUnsupp : Err → Bool
  | .unsuppBinop _ => true
  | .unsuppUnop _ => true
  | _ => false

/-- The result does not carry an unsupported-operator error. -/
def errFree : Res → Bool
  | .err _ er => !(isUnsupp er)
  | _ => true

/-- When `binArith` raises, it raises TypeError. -/
theorem binArith_err_type : ∀ fi fq a b er, binArith fi fq a b = .error er →
    er = .typeErr := by
  intro fi fq a b er h
  rw [binArith] at h
  repeat' split at h
  all_goals first
    | (cases h; rfl)
    | exact Except.noConfusion h

/-- When `pyDivide` raises, it raises TypeError. -/
theorem pyDivide_err_type : ∀ a b er, pyDivide a b = .error er →
    er = .typeErr := by
  intro a b er h
  rw [pyDivide] at h
  repeat' split at h
  all_goals first
    | (cases h; rfl)
    | exact Except.noConfusion h

/-- When `pyCmp` raises, it raises TypeError. -/
theorem pyCmp_err_type : ∀ (f : PyFloat → PyFloat → Bool) a b er,
    pyCmp f a b = .error er → er = .typeErr := by
  intro f a b er h
  rw [pyCmp] at h
  repeat' split at h
  all_goals first
    | (cases h; rfl)
    | exact Except.noConfusion h

/-- With a handled operator token, `visit_binop`'s dispatch never reaches the
unsupported-operator raise. -/
theorem applyBin_err_free : ∀ op l r er, binopOk op = true →
    applyBin op l r = .error er → isUnsupp er = false := by
  intro op l r er hop h
  rw [applyBin] at h
  repeat' split at h
  all_goals try exact Except.noConfusion h
  all_goals try (rw [binArith_err_type _ _ _ _ _ h]; rfl)
  all_goals try (rw [pyDivide_err_type _ _ _ h]; rfl)
  all_goals try (rw [pyCmp_err_type _ _ _ _ h]; rfl)
  all_goals try (cases h; rfl)
  cases h
  exfalso
  rw [binopOk] at hop
  simp only [Bool.or_eq_true, decide_eq_true_eq] at hop
  rcases hop with h1|h1|h1|h1|h1|h1|h1|h1|h1|h1 <;> simp_all

/-- With MINUS or PLUS, `visit_unaryop`'s dispatch never reaches the
unsupported-operator raise. -/
theorem applyUn_err_free : ∀ op v er, unopOk op = true →
    applyUn op v = .error er → isUnsupp er = false := by
  intro op v er hop h
  rw [applyUn] at h
  repeat' split at h
  all_goals try exact Except.noConfusion h
  all_goals try (cases h; rfl)
  cases h
  exfalso
  rw [unopOk] at hop
  simp only [Bool.or_eq_true, decide_eq_true_eq] at hop
  rcases hop with h1|h1 <;> simp_all

/-- Executing well-formed statements never raises the unsupported-binary- or
unsupported-unary-operator errors, whatever the state: the parser only emits
operator tags from the handled sets. Proved for the four mutually recursive
evaluator functions simultaneously by induction on fuel. -/
theorem run_errFree : ∀ fuel,
    (∀ n st, wfB n = true → errFree (visit fuel n st) = true) ∧
    (∀ l st, wfList l = true → errFree (visitSeq fuel l st) = true) ∧
    (∀ c b st, exprB c = true → wfList b = true →
      errFree (whileLoop fuel c b st) = true) ∧
    (∀ c u b st, exprB c = true → wfB u = true → wfList b = true →
      errFree (forLoop fuel c u b st) = true) := by
  intro fuel
  induction fuel with
  | zero =>
    exact ⟨fun n st _ => rfl, fun l st _ => rfl,
      fun c b st _ _ => rfl, fun c u b st _ _ _ => rfl⟩
  | succ fuel ih =>
    obtain ⟨ihV, ihS, ihW, ihF⟩ := ih
    refine ⟨?_, ?_, ?_, ?_⟩
    · -- visit
      intro n st hwf
      cases n with
      | number n => rfl
      | identifier name =>
        simp only [visit]
        cases henv : envGet st.env name with
        | some v => rfl
        | none => rfl
      | unaryop op e =>
        rw [wfB.eq_def] at hwf
        simp only [Bool.and_eq_true] at hwf
        simp only [visit]
        cases hv : visit fuel e st with
        | ok st1 v =>
          simp only [hv]
          cases hau : applyUn op v with
          | ok w => rfl
          | error er =>
            simp only [errFree, applyUn_err_free op v er hwf.1 hau]
            rfl
        | err st1 er =>
          simp only [hv]
          have h2 := ihV e st (exprB_wf e hwf.2); rwa [hv] at h2
        | nofuel => simp only [hv]; rfl
      | binop op l r =>
        rw [wfB.eq_def] at hwf
        simp only [Bool.and_eq_true] at hwf
        simp only [visit]
        cases hlv : visit fuel l st with
        | ok st1 lv =>
          simp only [hlv]
          cases hrv : visit fuel r st1 with
          | ok st2 rv =>
            simp only [hrv]
            cases hab : applyBin op lv rv with
            | ok w => rfl
            | error er =>
              simp only [errFree, applyBin_err_free op lv rv er hwf.1.1 hab]
              rfl
          | err st2 er =>
            simp only [hrv]
            have h2 := ihV r st1 (exprB_wf r hwf.2); rwa [hrv] at h2
          | nofuel => simp only [hrv]; rfl
        | err st1 er =>
          simp only [hlv]
          have h2 := ihV l st (exprB_wf l hwf.1.2); rwa [hlv] at h2
        | nofuel => simp only [hlv]; rfl
      | assign name e =>
        rw [wfB.eq_def] at hwf
        simp only [visit]
        cases hv : visit fuel e st with
        | ok st1 v => simp only [hv]; rfl
        | err st1 er =>
          simp only [hv]
          have h2 := ihV e st (exprB_wf e hwf); rwa [hv] at h2
        | nofuel => simp only [hv]; rfl
      | printS e =>
        rw [wfB.eq_def] at hwf
        simp only [visit]
        cases hv : visit fuel e st with
        | ok st1 v => simp only [hv]; rfl
        | err st1 er =>
          simp only [hv]
          have h2 := ihV e st (exprB_wf e hwf); rwa [hv] at h2
        | nofuel => simp only [hv]; rfl
      | ifS c b eb =>
        rw [wfB.eq_def] at hwf
        simp only [Bool.and_eq_true] at hwf
        simp only [visit]
        cases hv : visit fuel c st with
        | ok st1 cv =>
          simp only [hv]
          split
          · exact ihS _ _ hwf.1.2
          · cases eb with
            | some ebl => exact ihS _ _ hwf.2
            | none => rfl
        | err st1 er =>
          simp only [hv]
          have h2 := ihV c st (exprB_wf c hwf.1.1); rwa [hv] at h2
        | nofuel => simp only [hv]; rfl
      | whileS c b =>
        rw [wfB.eq_def] at hwf
        simp only [Bool.and_eq_true] at hwf
        simp only [visit]
        exact ihW _ _ _ hwf.1 hwf.2
      | forS i c u b =>
        rw [wfB.eq_def] at hwf
        simp only [Bool.and_eq_true] at hwf
        simp only [visit]
        cases hv : visit fuel i st with
        | ok st1 v =>
          simp only [hv]
          exact ihF _ _ _ _ hwf.1.1.2 hwf.1.2 hwf.2
        | err st1 er =>
          simp only [hv]
          have h2 := ihV i st hwf.1.1.1; rwa [hv] at h2
        | nofuel => simp only [hv]; rfl
    · -- visitSeq
      intro l st hwf
      cases l with
      | nil => rfl
      | cons n ns =>
        rw [wfList.eq_def] at hwf
        simp only [Bool.and_eq_true] at hwf
        simp only [visitSeq]
        cases hv : visit fuel n st with
        | ok st1 v =>
          simp only [hv]
          exact ihS _ _ hwf.2
        | err st1 er =>
          simp only [hv]
          have h2 := ihV n st hwf.1; rwa [hv] at h2
        | nofuel => simp only [hv]; rfl
    · -- whileLoop
      intro c b st hc hb
      simp only [whileLoop]
      cases hv : visit fuel c st with
      | ok st1 cv =>
        simp only [hv]
        split
        · cases hs : visitSeq fuel b st1 with
          | ok st2 v =>
            simp only [hs]
            exact ihW _ _ _ hc hb
          | err st2 er =>
            simp only [hs]
            have h2 := ihS b st1 hb; rwa [hs] at h2
          | nofuel => simp only [hs]; rfl
        · rfl
      | err st1 er =>
        simp only [hv]
        have h2 := ihV c st (exprB_wf c hc); rwa [hv] at h2
      | nofuel => simp only [hv]; rfl
    · -- forLoop
      intro c u b st hc hu hb
      simp only [forLoop]
      cases hv : visit fuel c st with
      | ok st1 cv =>
        simp only [hv]
        split
        · cases hs : visitSeq fuel b st1 with
          | ok st2 v =>
            simp only [hs]
            cases hup : visit fuel u st2 with
            | ok st3 v2 =>
              simp only [hup]
              exact ihF _ _ _ _ hc hu hb
            | err st3 er =>
              simp only [hup]
              have h2 := ihV u st2 hu; rwa [hup] at h2
            | nofuel => simp only [hup]; rfl
          | err st2 er =>
            simp only [hs]
            have h2 := ihS b st1 hb; rwa [hs] at h2
          | nofuel => simp only [hs]; rfl
        · rfl
      | err st1 er =>
        simp only [hv]
        have h2 := ihV c st (exprB_wf c hc); rwa [hv] at h2
      | nofuel => simp only [hv]; rfl

/-! ## Fuel monotonicity -/

/-- Fuel is an artifact of the embedding: a run that completes (normally or
with an exception) at some fuel completes identically at any larger fuel. -/
theorem run_mono : ∀ fuel fuel2, fuel ≤ fuel2 →
    (∀ n st, visit fuel n st ≠ .nofuel →
      visit fuel2 n st = visit fuel n st) ∧
    (∀ l st, visitSeq fuel l st ≠ .nofuel →
      visitSeq fuel2 l st = visitSeq fuel l st) ∧
    (∀ c b st, whileLoop fuel c b st ≠ .nofuel →
      whileLoop fuel2 c b st = whileLoop fuel c b st) ∧
    (∀ c u b st, forLoop fuel c u b st ≠ .nofuel →
      forLoop fuel2 c u b st = forLoop fuel c u b st) := by
  intro fuel
  induction fuel with
  | zero =>
    intro fuel2 _
    exact ⟨fun n st h => absurd rfl h, fun l st h => absurd rfl h,
      fun c b st h => absurd rfl h, fun c u b st h => absurd rfl h⟩
  | succ fuel ih =>
    intro fuel2 hle
    cases fuel2 with
    | zero => exact absurd hle (by omega)
    | succ fuel2 =>
      have hle2 : fuel ≤ fuel2 := Nat.succ_le_succ_iff.mp hle
      obtain ⟨ihV, ihS, ihW, ihF⟩ := ih fuel2 hle2
      refine ⟨?_, ?_, ?_, ?_⟩
      · -- visit
        intro n st hne
        cases n with
        | number n => rfl
        | identifier name => simp only [visit]
        | unaryop op e =>
          simp only [visit]
          cases hv : visit fuel e st with
          | ok st1 v => rw [ihV e st (by simp [hv]), hv]
          | err st1 er => rw [ihV e st (by simp [hv]), hv]
          | nofuel =>
            simp only [visit, hv] at hne
            exact absurd rfl hne
        | binop op l r =>
          simp only [visit]
          cases hlv : visit fuel l st with
          | ok st1 lv =>
            rw [ihV l st (by simp [hlv]), hlv]
            simp only []
            cases hrv : visit fuel r st1 with
            | ok st2 rv => rw [ihV r st1 (by simp [hrv]), hrv]
            | err st2 er => rw [ihV r st1 (by simp [hrv]), hrv]
            | nofuel =>
              simp only [visit, hlv, hrv] at hne
              exact absurd rfl hne
          | err st1 er => rw [ihV l st (by simp [hlv]), hlv]
          | nofuel =>
            simp only [visit, hlv] at hne
            exact absurd rfl hne
        | assign name e =>
          simp only [visit]
          cases hv : visit fuel e st with
          | ok st1 v => rw [ihV e st (by simp [hv]), hv]
          | err st1 er => rw [ihV e st (by simp [hv]), hv]
          | nofuel =>
            simp only [visit, hv] at hne
            exact absurd rfl hne
        | printS e =>
          simp only [visit]
          cases hv : visit fuel e st with
          | ok st1 v => rw [ihV e st (by simp [hv]), hv]
          | err st1 er => rw [ihV e st (by simp [hv]), hv]
          | nofuel =>
            simp only [visit, hv] at hne
            exact absurd rfl hne
        | ifS c b eb =>
          simp only [visit]
          cases hv : visit fuel c st with
          | ok st1 cv =>
            rw [ihV c st (by simp [hv]), hv]
            simp only []
            split
            · exact ihS b st1 (by
                simp only [visit, hv] at hne
                simp_all)
            · cases eb with
              | some ebl =>
                exact ihS ebl st1 (by
                  simp only [visit, hv] at hne
                  simp_all)
              | none => rfl
          | err st1 er => rw [ihV c st (by simp [hv]), hv]
          | nofuel =>
            simp only [visit, hv] at hne
            exact absurd rfl hne
        | whileS c b =>
          simp only [visit]
          exact ihW c b st (by simpa only [visit] using hne)
        | forS i c u b =>
          simp only [visit]
          cases hv : visit fuel i st with
          | ok st1 v =>
            rw [ihV i st (by simp [hv]), hv]
            simp only []
            exact ihF c u b st1 (by
              simp only [visit, hv] at hne
              simpa using hne)
          | err st1 er => rw [ihV i st (by simp [hv]), hv]
          | nofuel =>
            simp only [visit, hv] at hne
            exact absurd rfl hne
      · -- visitSeq
        intro l st hne
        cases l with
        | nil => rfl
        | cons n ns =>
          simp only [visitSeq]
          cases hv : visit fuel n st with
          | ok st1 v =>
            rw [ihV n st (by simp [hv]), hv]
            simp only []
            exact ihS ns st1 (by
              simp only [visitSeq, hv] at hne
              simpa using hne)
          | err st1 er => rw [ihV n st (by simp [hv]), hv]
          | nofuel =>
            simp only [visitSeq, hv] at hne
            exact absurd rfl hne
      · -- whileLoop
        intro c b st hne
        simp only [whileLoop]
        cases hv : visit fuel c st with
        | ok st1 cv =>
          rw [ihV c st (by simp [hv]), hv]
          simp only []
          split
          · cases hs : visitSeq fuel b st1 with
            | ok st2 v =>
              rw [ihS b st1 (by simp [hs]), hs]
              simp only []
              exact ihW c b st2 (by
                simp only [whileLoop, hv, hs] at hne
                simp_all)
            | err st2 er => rw [ihS b st1 (by simp [hs]), hs]
            | nofuel =>
              simp only [whileLoop, hv, hs] at hne
              simp_all
          · rfl
        | err st1 er => rw [ihV c st (by simp [hv]), hv]
        | nofuel =>
          simp only [whileLoop, hv] at hne
          exact absurd rfl hne
      · -- forLoop
        intro c u b st hne
        simp only [forLoop]
        cases hv : visit fuel c st with
        | ok st1 cv =>
          rw [ihV c st (by simp [hv]), hv]
          simp only []
          split
          · cases hs : visitSeq fuel b st1 with
            | ok st2 v =>
              rw [ihS b st1 (by simp [hs]), hs]
              simp only []
              cases hup : visit fuel u st2 with
              | ok st3 v2 =>
                rw [ihV u st2 (by simp [hup]), hup]
                simp only []
                exact ihF c u b st3 (by
                  simp only [forLoop, hv, hs, hup] at hne
                  simp_all)
              | err st3 er => rw [ihV u st2 (by simp [hup]), hup]
              | nofuel =>
                simp only [forLoop, hv, hs, hup] at hne
                simp_all
            | err st2 er => rw [ihS b st1 (by simp [hs]), hs]
            | nofuel =>
              simp only [forLoop, hv, hs] at hne
              simp_all
          · rfl
        | err st1 er => rw [ihV c st (by simp [hv]), hv]
        | nofuel =>
          simp only [forLoop, hv] at hne
          exact absurd rfl hne

/-- Sequential execution with a failing statement in the middle: when the
statements before it all execute normally and the next one raises, the whole
list raises that same error from the same state — the earlier statements'
effects are retained and the statements after the failing one never run
(witness the unconstrained `post`). -/
theorem visitSeq_append_err : ∀ pre fuel s post st st1 v st2 er,
    visitSeq fuel pre st = .ok st1 v →
    visit fuel s st1 = .err st2 er →
    visitSeq (fuel + pre.length + 1) (pre ++ s :: post) st = .err st2 er := by
  intro pre
  induction pre with
  | nil =>
    intro fuel s post st st1 v st2 er h1 h2
    cases fuel with
    | zero => exact Res.noConfusion h1
    | succ f =>
      rw [visitSeq] at h1
      cases h1
      simp only [List.nil_append, List.length_nil, Nat.add_zero]
      rw [visitSeq]
      simp only [h2]
  | cons x xs ihp =>
    intro fuel s post st st1 v st2 er h1 h2
    cases fuel with
    | zero => exact Res.noConfusion h1
    | succ f =>
      rw [visitSeq] at h1
      cases hx : visit f x st with
      | ok stx vx =>
        simp only [hx] at h1
        have h1b : visitSeq (f + 1) xs stx = .ok st1 v := by
          have hm := (run_mono f (f + 1) (by omega)).2.1 xs stx (by simp [h1])
          rw [h1] at hm; exact hm
        have hxb : visit (f + 1 + xs.length + 1) x st = .ok stx vx := by
          have hm := (run_mono f (f + 1 + xs.length + 1) (by omega)).1 x st
            (by simp [hx])
          rw [hx] at hm; exact hm
        have hIH := ihp (f + 1) s post stx st1 v st2 er h1b h2
        simp only [List.length_cons, List.cons_append, Nat.add_succ]
        rw [visitSeq]
        simp only [Nat.add_succ] at hxb hIH ⊢
        rw [hxb]
        exact hIH
      | err stx er2 => simp only [hx] at h1; exact Res.noConfusion h1
      | nofuel => simp only [hx] at h1; exact Res.noConfusion h1

/-! ## Auxiliary definitions for the claims -/

/-- A numeric value in the spec's narrow sense: an int or a float. -/
def isNum : Value → Bool
  | .vInt _ => true
  | .vFloat _ => true
  | _ => false

/-- All 92 case variants of the five keywords. -/
def kwVariants : List String :=
  ["if", "iF", "If", "IF", "else", "elsE",
   "elSe", "elSE", "eLse", "eLsE", "eLSe", "eLSE",
   "Else", "ElsE", "ElSe", "ElSE", "ELse", "ELsE",
   "ELSe", "ELSE", "while", "whilE", "whiLe", "whiLE",
   "whIle", "whIlE", "whILe", "whILE", "wHile", "wHilE",
   "wHiLe", "wHiLE", "wHIle", "wHIlE", "wHILe", "wHILE",
   "While", "WhilE", "WhiLe", "WhiLE", "WhIle", "WhIlE",
   "WhILe", "WhILE", "WHile", "WHilE", "WHiLe", "WHiLE",
   "WHIle", "WHIlE", "WHILe", "WHILE", "for", "foR",
   "fOr", "fOR", "For", "FoR", "FOr", "FOR",
   "print", "prinT", "priNt", "priNT", "prInt", "prInT",
   "prINt", "prINT", "pRint", "pRinT", "pRiNt", "pRiNT",
   "pRInt", "pRInT", "pRINt", "pRINT", "Print", "PrinT",
   "PriNt", "PriNT", "PrInt", "PrInT", "PrINt", "PrINT",
   "PRint", "PRinT", "PRiNt", "PRiNT", "PRInt", "PRInT",
   "PRINt", "PRINT"]

/-- The front end rejects this text with a parse error. -/
def parseFails (s : String) : Bool :=
  match parseProgram s with
  | .error (.parseErr _) => true
  | _ => false

/-- The first token of this text is one of the five keyword tokens. -/
def firstTokKw (s : String) : Bool :=
  match tokenize s.data with
  | .ok (t :: _) => t.isKw
  | _ => false

/-- Writing one name never touches another name's binding. -/
theorem envSet_other : ∀ env s t v, s ≠ t →
    envGet (envSet env s v) t = envGet env t := by
  intro env
  induction env with
  | nil => intro s t v hst; simp [envSet, envGet, hst]
  | cons p rest ih =>
    obtain ⟨k, w⟩ := p
    intro s t v hst
    rw [envSet]
    split
    · rename_i hk
      subst hk
      simp [envGet, hst]
    · simp only [envGet]
      split
      · rfl
      · exact ih s t v hst

/-- The collecting loop of `Lexer.id` takes exactly the longest prefix of
identifier characters. -/
theorem lexIdChars_eq : ∀ cs,
    lexIdChars cs = (cs.takeWhile isIdChar, cs.dropWhile isIdChar) := by
  intro cs
  induction cs with
  | nil => rfl
  | cons c rest ih =>
    rw [lexIdChars, List.takeWhile, List.dropWhile]
    split <;> simp_all

/-- The function `visit_binop`'s dispatch at the DIVIDE token. -/
theorem applyBin_divide : ∀ a b, applyBin "DIVIDE" a b =
    if isZeroVal b then .error .divByZero else pyDivide a b := fun a b => rfl

/-! ## Claims -/

/-- C1, counterexample: the spec's own example program
`for (i = 0; i < 3; i = i + 1) { print(i); }` does NOT parse — the update
clause is a full assignment statement, so the parser demands a `;` before
`)` and rejects the program with a parse error, leaving the environment
untouched and printing nothing. -/
theorem C1_counterexample :
    interpretTurn 100 "for (i = 0; i < 3; i = i + 1) \x7b print(i); \x7d" [] =
      ([], [], some (.parseErr "Expected SEMI, but got RPAREN")) := by
  rfl

/-- C1, amended: with the update clause terminated by `;` as the grammar
`for '(' assignStmt expression ';' assignStmt ')' '{' statements '}'`
requires, the program parses and prints 0, 1, 2 in order, one value per
print event, ending with `i` bound to 3. -/
theorem C1_for_loop_amended :
    interpretTurn 100 "for (i = 0; i < 3; i = i + 1;) \x7b print(i); \x7d" [] =
      ([("i", .vInt 3)], [.vInt 0, .vInt 1, .vInt 2], none) := by
  rfl

/-- C2: when an assignment's right-hand side — an expression node — raises
the division-by-zero error, the whole assignment raises that same error from
the *original* state: the assignment is not performed, the environment (and
in particular the assigned name's binding) is exactly as before. -/
theorem C2_divzero_assign : ∀ fuel name e st st2, exprB e = true →
    visit fuel e st = .err st2 .divByZero →
    visit (fuel + 1) (Node.assign name e) st = .err st .divByZero := by
  intro fuel name e st st2 he h
  have h1 := expr_pure_err fuel e st st2 .divByZero he h
  subst h1
  simp only [visit, h]

/-- C2, witness: `y = 10 / 0;` raises ZeroDivisionError and leaves `y`
unbound. -/
theorem C2_witness :
    visit 6 (Node.assign "y" (Node.binop "DIVIDE" (Node.number 10)
        (Node.number 0))) ⟨[], []⟩ = .err ⟨[], []⟩ .divByZero ∧
    interpretTurn 100 "y = 10 / 0;" [] = ([], [], some .divByZero) ∧
    envGet [] "y" = none :=
  ⟨C2_divzero_assign 5 "y" _ ⟨[], []⟩ ⟨[], []⟩ (by decide) (by decide),
   by rfl, by rfl⟩

/-- C3: a runtime error in the middle of a submitted block stops execution
at the failing statement — earlier statements' effects are retained (the
error propagates the state as mutated so far) and the statements after the
failing one (the unconstrained `post`) never execute. -/
theorem C3_error_stops_block : ∀ pre fuel s post st st1 v st2 er,
    visitSeq fuel pre st = .ok st1 v →
    visit fuel s st1 = .err st2 er →
    visitSeq (fuel + pre.length + 1) (pre ++ s :: post) st = .err st2 er :=
  visitSeq_append_err

/-- C3, witness: `a = 1; b = 1/0; c = 3;` leaves `a` bound to 1, reports the
division-by-zero error, and leaves `c` unassigned. -/
theorem C3_witness :
    visitSeq 7 ([Node.assign "a" (Node.number 1)] ++
        Node.assign "b" (Node.binop "DIVIDE" (Node.number 1) (Node.number 0)) ::
        [Node.assign "c" (Node.number 3)]) ⟨[], []⟩ =
      .err ⟨[("a", .vInt 1)], []⟩ .divByZero ∧
    interpretTurn 100 "a = 1; b = 1/0; c = 3;" [] =
      ([("a", .vInt 1)], [], some .divByZero) ∧
    envGet [("a", .vInt 1)] "a" = some (.vInt 1) ∧
    envGet [("a", .vInt 1)] "c" = none :=
  ⟨C3_error_stops_block [Node.assign "a" (Node.number 1)] 5 _ _ ⟨[], []⟩
      ⟨[("a", .vInt 1)], []⟩ .vNone ⟨[("a", .vInt 1)], []⟩ .divByZero
      (by decide) (by decide),
   by rfl, by rfl, by rfl⟩

/-- C4: whenever a DIVIDE binary operation evaluates successfully, the value
is a floating-point number — even for exact divisions of integers. -/
theorem C4_div_always_float : ∀ fuel l r st st2 v,
    visit fuel (Node.binop "DIVIDE" l r) st = .ok st2 v →
    ∃ q, v = Value.vFloat q := by
  intro fuel l r st st2 v h
  cases fuel with
  | zero => exact Res.noConfusion h
  | succ fuel =>
    rw [visit] at h
    cases hlv : visit fuel l st with
    | ok st1 lv =>
      simp only [hlv] at h
      cases hrv : visit fuel r st1 with
      | ok st2' rv =>
        simp only [hrv] at h
        cases hab : applyBin "DIVIDE" lv rv with
        | ok w =>
          simp only [hab] at h
          cases h
          rw [applyBin_divide] at hab
          split at hab
          · exact Except.noConfusion hab
          · rw [pyDivide] at hab
            repeat' split at hab
            · cases hab; exact ⟨_, rfl⟩
            · exact Except.noConfusion hab
        | error er => simp only [hab] at h; exact Res.noConfusion h
      | err st2' er => simp only [hrv] at h; exact Res.noConfusion h
      | nofuel => simp only [hrv] at h; exact Res.noConfusion h
    | err st1 er => simp only [hlv] at h; exact Res.noConfusion h
    | nofuel => simp only [hlv] at h; exact Res.noConfusion h

/-- C4, witness: `print(4 / 2);` prints the floating-point value 2.0 (the
exact rational 2 of float kind), not the integer 2. -/
theorem C4_witness :
    (∃ q, Value.vFloat ⟨4, 2⟩ = Value.vFloat q) ∧
    interpretTurn 100 "print(4 / 2);" [] = ([], [.vFloat ⟨4, 2⟩], none) ∧
    PyFloat.feq ⟨4, 2⟩ (.ofInt 2) = true :=
  ⟨C4_div_always_float 2 (Node.number 4) (Node.number 2) ⟨[], []⟩ ⟨[], []⟩
      (.vFloat ⟨4, 2⟩) (by decide),
   by rfl, by rfl⟩

/-- C5, counterexample: an identifier run beginning with an underscore does
NOT lex: `_` is in `Lexer.id`'s character class, but `get_next_token` only
enters `id()` on `isalpha`, so the input `_a` raises the invalid-character
LexError instead of producing a token. -/
theorem C5_counterexample :
    isIdChar '_' = true ∧
    getNextToken ('_' :: ['a']) = .error .invalidChar ∧
    tokenize "_a".data = .error .invalidChar := by
  refine ⟨rfl, rfl, rfl⟩

/-- C5, amended: when the next non-whitespace character is *alphabetic*, the
lexer returns the full run of alphabetic/underscore characters — as the
keyword token when the run matches a keyword case-insensitively, otherwise
as an IDENTIFIER carrying the original-case text — and never raises.
(A run *beginning* with an underscore instead raises the invalid-character
error, as the counterexample shows.) -/
theorem C5_alpha_runs_lex : ∀ cs c rest, skipWs cs = c :: rest →
    c.isAlpha = true →
    getNextToken cs =
      .ok ((match kwLookup (strLower (String.mk ((c :: rest).takeWhile isIdChar)))
              with
            | some kt => kt
            | none => Token.IDENTIFIER (String.mk ((c :: rest).takeWhile isIdChar))),
        (c :: rest).dropWhile isIdChar) := by
  intro cs c rest hskip halpha
  rw [getNextToken, hskip]
  simp only [halpha, if_true, lexId, lexIdChars_eq]
  cases kwLookup (strLower (String.mk ((c :: rest).takeWhile isIdChar))) <;> rfl

/-- C5, witness: lexing ` Wh_+` skips the space and returns the identifier
`Wh_` with original case, leaving `+` unconsumed. -/
theorem C5_witness :
    getNextToken (' ' :: ['W', 'h', '_', '+']) =
      .ok (.IDENTIFIER "Wh_", ['+']) :=
  (C5_alpha_runs_lex (' ' :: ['W', 'h', '_', '+']) 'W' ['h', '_', '+']
      (by decide) (by decide)).trans (by rfl)

/-- C6, counterexample: `x = 1 < 2;` stores the *boolean* True in the
environment — a value that is neither an int nor a float, so the claimed
"integer or floating-point" invariant fails on comparison results. -/
theorem C6_counterexample :
    interpretTurn 100 "x = 1 < 2;" [] = ([("x", .vBool true)], [], none) ∧
    envGet [("x", .vBool true)] "x" = some (.vBool true) ∧
    isNum (.vBool true) = false := by
  refine ⟨by rfl, by rfl, by rfl⟩

/-- C6, amended: after every executed statement of a turn whose program came
from the parser, every value stored in the environment is an int, a float or
a bool (never Python's None or anything else) — whether the turn ends
normally or in an error. -/
theorem C6_env_values_good : ∀ text stmts fuel env out,
    parseProgram text = .ok stmts → envGood env = true →
    resEnvGood (visitSeq fuel stmts ⟨env, out⟩) = true :=
  fun text stmts fuel env out hp hg =>
    (run_envGood fuel).2.1 stmts ⟨env, out⟩ (parseProgram_wf text stmts hp) hg

/-- C6, witness: the invariant holds concretely for `x = 1 < 2;` run from
the empty environment. -/
theorem C6_witness :
    parseProgram "x = 1 < 2;" =
      .ok [Node.assign "x" (Node.binop "LT" (Node.number 1) (Node.number 2))] ∧
    resEnvGood (visitSeq 100
      [Node.assign "x" (Node.binop "LT" (Node.number 1) (Node.number 2))]
      ⟨[], []⟩) = true :=
  ⟨by rfl, C6_env_values_good "x = 1 < 2;" _ 100 [] [] (by rfl) (by rfl)⟩

/-- C7: keyword matching is case-insensitive — `IF (1) { print(1); }` lexes
to the same token stream as `if (1) { print(1); }`, so the whole turn
behaves identically on every environment — while identifier case is
significant: writing one name never touches a differently-spelled name, and
`X = 1; x = 2;` leaves two distinct bindings. -/
theorem C7_keyword_case : (∀ fuel env,
      interpretTurn fuel "IF (1) \x7b print(1); \x7d" env =
        interpretTurn fuel "if (1) \x7b print(1); \x7d" env) ∧
    (∀ env s t v, s ≠ t → envGet (envSet env s v) t = envGet env t) ∧
    interpretTurn 100 "X = 1; x = 2;" [] =
      ([("X", .vInt 1), ("x", .vInt 2)], [], none) := by
  refine ⟨?_, envSet_other, by rfl⟩
  intro fuel env
  have ht : tokenize (String.data "IF (1) \x7b print(1); \x7d") =
      tokenize (String.data "if (1) \x7b print(1); \x7d") := by rfl
  simp only [interpretTurn, parseProgram, ht]

/-- C7, witness: the uppercase-IF and lowercase-if turns agree concretely,
and assigning `X` does not create or change `x`. -/
theorem C7_witness :
    interpretTurn 100 "IF (1) \x7b print(1); \x7d" [] =
      interpretTurn 100 "if (1) \x7b print(1); \x7d" [] ∧
    envGet (envSet [] "X" (.vInt 1)) "x" = envGet [] "x" :=
  ⟨C7_keyword_case.1 100 [], C7_keyword_case.2.1 [] "X" "x" (.vInt 1)
    (by decide)⟩

/-- C8: every node the expression grammar can produce satisfies `exprB` — in
particular it contains no assignment, which is statement-level only — and
evaluating it has no effect on the state: it either runs out of fuel,
returns a value with the state unchanged, or raises with the state
unchanged. -/
theorem C8_expr_no_side_effects : ∀ pfuel ts e ts2,
    pExpression pfuel ts = .ok (e, ts2) →
    exprB e = true ∧
    ∀ fuel st, visit fuel e st = .nofuel ∨
      (∃ v, visit fuel e st = .ok st v) ∨
      (∃ er, visit fuel e st = .err st er) :=
  fun pfuel ts e ts2 hp =>
    have he := (parser_wf pfuel).2.2.2.2.2.2.2.1 ts e ts2 hp
    ⟨he, fun fuel st => expr_pure fuel e st he⟩

/-- C8, witness: the expression `x + 1`, as parsed, is an expression node and
its evaluation leaves the environment `x ↦ 5` untouched. -/
theorem C8_witness :
    exprB (Node.binop "PLUS" (Node.identifier "x") (Node.number 1)) = true ∧
    (visit 3 (Node.binop "PLUS" (Node.identifier "x") (Node.number 1))
        ⟨[("x", .vInt 5)], []⟩ = .nofuel ∨
      (∃ v, visit 3 (Node.binop "PLUS" (Node.identifier "x") (Node.number 1))
        ⟨[("x", .vInt 5)], []⟩ = .ok ⟨[("x", .vInt 5)], []⟩ v) ∨
      (∃ er, visit 3 (Node.binop "PLUS" (Node.identifier "x") (Node.number 1))
        ⟨[("x", .vInt 5)], []⟩ = .err ⟨[("x", .vInt 5)], []⟩ er)) :=
  have h := C8_expr_no_side_effects 20
    [.IDENTIFIER "x", .PLUS, .NUMBER 1] _ [] (by rfl)
  ⟨h.1, h.2 3 ⟨[("x", .vInt 5)], []⟩⟩

/-- C9: for every case variant of the five keywords used as an assignment
target (`While = 1;` and the like), the lexer produces the keyword token —
never an IDENTIFIER — the parser rejects the text with a parse error, and
the turn leaves any environment unchanged with no output. -/
theorem C9_keywords_not_targets : ∀ w ∈ kwVariants, ∀ (env : Env) (fuel : Nat),
    firstTokKw (w ++ " = 1;") = true ∧
    ∃ msg, parseProgram (w ++ " = 1;") = .error (.parseErr msg) ∧
      interpretTurn fuel (w ++ " = 1;") env = (env, [], some (.parseErr msg)) := by
  have hall : kwVariants.all
      (fun w => firstTokKw (w ++ " = 1;") && parseFails (w ++ " = 1;")) = true := by
    decide
  intro w hw env fuel
  have hb := List.all_eq_true.mp hall w hw
  simp only [Bool.and_eq_true] at hb
  refine ⟨hb.1, ?_⟩
  have hp := hb.2
  rw [parseFails] at hp
  cases hpp : parseProgram (w ++ " = 1;") with
  | ok stmts =>
    simp only [hpp] at hp
    exact Bool.noConfusion hp
  | error e =>
    simp only [hpp] at hp
    cases e with
    | parseErr msg =>
      refine ⟨msg, rfl, ?_⟩
      simp only [interpretTurn, hpp]
    | invalidChar => exact Bool.noConfusion hp
    | divByZero => exact Bool.noConfusion hp
    | nameErr a => exact Bool.noConfusion hp
    | unsuppBinop a => exact Bool.noConfusion hp
    | unsuppUnop a => exact Bool.noConfusion hp
    | typeErr => exact Bool.noConfusion hp
    | fuelOut => exact Bool.noConfusion hp

/-- C9, witness: `While = 1;` concretely lexes to the WHILE keyword, fails
to parse, and leaves the environment unchanged. -/
theorem C9_witness :
    firstTokKw ("While" ++ " = 1;") = true ∧
    ∃ msg, parseProgram ("While" ++ " = 1;") = .error (.parseErr msg) ∧
      interpretTurn 100 ("While" ++ " = 1;") [("a", .vInt 7)] =
        ([("a", .vInt 7)], [], some (.parseErr msg)) :=
  C9_keywords_not_targets "While" (by decide) [("a", .vInt 7)] 100

/-- C10: on any program the Parser accepts, evaluation never reaches the
defensive unsupported-binary-operator or unsupported-unary-operator raises,
from any starting state: the parser only emits operator tags from the
handled sets. (The unknown-node-kind error of `generic_visit` is likewise
unreachable: the parser only builds the nine node kinds of `Node`, over
which the evaluator's dispatch is total.) -/
theorem C10_defensive_unreachable : ∀ text stmts fuel st st2 er,
    parseProgram text = .ok stmts →
    visitSeq fuel stmts st = .err st2 er →
    isUnsupp er = false := by
  intro text stmts fuel st st2 er hp herr
  have h2 := (run_errFree fuel).2.1 stmts st (parseProgram_wf text stmts hp)
  rw [herr] at h2
  simpa [errFree] using h2

/-- C10, witness: the bare-expression turn `1 / 0` parses (a bare expression
statement takes no trailing semicolon) and its runtime error is division by
zero — not one of the defensive unsupported-operator errors. -/
theorem C10_witness :
    isUnsupp .divByZero = false :=
  C10_defensive_unreachable "1 / 0"
    [Node.binop "DIVIDE" (Node.number 1) (Node.number 0)] 100 ⟨[], []⟩
    ⟨[], []⟩ .divByZero (by rfl) (by rfl)

end ProgLang
